import Mathlib

/-!
Verification of the firmware-update orchestration core of the cc_dey agent
(`library/src/cc_firmware_update.c`).

The C code is shallowly embedded: each C function relevant to the claims is
translated into an executable Lean definition over explicit state.  External
collaborators that are not part of the repository (the filesystem, `statvfs`,
`miniunz` decompression, the CRC32 routine, process execution) are modelled as
explicit parameters or oracles:

* the filesystem is an association list from absolute paths to byte lists;
* `unzip` is an abstract decompression function: given the raw bytes of a
  `.zip` fragment and the name of the entry looked up with `unzLocateFile`,
  it yields `some` decompressed bytes, or `none` for any of the failure modes
  of `mf_assemble_fragment` (open/locate/decompress/write error);
* `crcFn` is an abstract CRC32 function on byte lists;
* results of `ldx_process_execute_cmd` / `popen` are `Option` parameters
  (`none` models the failed call or `NULL` result).

Machine integers that matter to the claims (`size_t` sizes, fragment counts
validated positive) are modelled as `Nat`; the `int is_dual` tri-state cache
keeps its C values (-1 / 0 / 1) as an `Int`.  The build modelled is the fully
featured one (`ENABLE_RECOVERY_UPDATE` and `ENABLE_ONTHEFLY_UPDATE` defined),
which is the configuration the specification describes.
-/

namespace CcFw

/-- Byte sequences are modelled as lists of naturals. -/
abbrev Bytes := List Nat

/-- Filesystem model: an association list from absolute paths to file
contents.  Later entries shadowed by earlier ones never arise because
`fsSet` erases before inserting. -/
abbrev FileSys := List (String × Bytes)

/-- Contents of the file at path `p` (`none` when the path is absent);
models `access(p, F_OK) == 0` (presence) and reading the file. -/
def fsGet : FileSys → String → Option Bytes
  | [], _ => none
  | (q, v) :: rest, p => if q = p then some v else fsGet rest p

/-- Model of `remove(path)`: delete the path from the filesystem.  Removing
an absent path leaves the filesystem unchanged (the C code ignores the
`remove` return value in every call site the claims touch). -/
def fsRemoveP : FileSys → String → FileSys
  | [], _ => []
  | (q, v) :: rest, p => if q = p then fsRemoveP rest p else (q, v) :: fsRemoveP rest p

/-- Model of `fopen(p, "wb+")` followed by writes: create or overwrite the
file at `p` with contents `v`. -/
def fsSet (fs : FileSys) (p : String) (v : Bytes) : FileSys :=
  (p, v) :: fsRemoveP fs p

theorem fsGet_fsRemoveP_same (fs : FileSys) (p : String) :
    fsGet (fsRemoveP fs p) p = none := by
  induction fs with
  | nil => rfl
  | cons e rest ih =>
    obtain ⟨q, v⟩ := e
    by_cases h : q = p
    · simp [fsRemoveP, h, ih]
    · simp [fsRemoveP, fsGet, h, ih]

theorem fsGet_fsRemoveP_ne (fs : FileSys) (p r : String) (h : r ≠ p) :
    fsGet (fsRemoveP fs p) r = fsGet fs r := by
  induction fs with
  | nil => rfl
  | cons e rest ih =>
    obtain ⟨q, v⟩ := e
    by_cases hq : q = p
    · subst hq
      simp [fsRemoveP, fsGet, Ne.symm h, ih]
    · by_cases hr : q = r
      · subst hr
        simp [fsRemoveP, fsGet, hq]
      · simp [fsRemoveP, fsGet, hq, hr, ih]

theorem fsGet_fsSet_same (fs : FileSys) (p : String) (v : Bytes) :
    fsGet (fsSet fs p v) p = some v := by
  simp [fsSet, fsGet]

theorem fsGet_fsSet_ne (fs : FileSys) (p r : String) (v : Bytes) (h : r ≠ p) :
    fsGet (fsSet fs p v) r = fsGet fs r := by
  simp [fsSet, fsGet, Ne.symm h, fsGet_fsRemoveP_ne fs p r h]

/-- Model of `concatenate_path(directory, file)` for non-NULL arguments:
append a '/' between the two parts unless the directory already ends in
one (`directory[strlen(directory) - 1] != '/'`). -/
def concatenate_path (directory file : String) : String :=
  if directory.data.getLast? = some '/' then directory ++ file
  else directory ++ "/" ++ file

/-- Firmware manifest (`mf_fw_t`): total package size, fragment count,
fragment base name, CRC32 checksum, fragments source directory. -/
structure mf_fw_t where
  fw_total_size : Nat
  n_fragments : Nat
  fragment_name : String
  fw_checksum : Nat
  fragments_dir : String
  deriving DecidableEq

/-- Firmware package fragment (`mf_fragment_t`). -/
structure mf_fragment_t where
  path : String
  name : String
  index : Nat
  deriving DecidableEq

/-- Firmware package information (`mf_fw_info_t`); the stored
`n_fragments` count is `fragments.length`. -/
structure mf_fw_info_t where
  file_path : String
  file_name : String
  manifest : mf_fw_t
  fragments : List mf_fragment_t
  deriving DecidableEq

/-- Model of `mf_get_fragment_file_name`: `snprintf("%s%d.zip")`. -/
def mf_get_fragment_file_name (name : String) (index : Nat) : String :=
  name ++ toString index ++ ".zip"

/-- Path of fragment `i` as computed inside `mf_get_fragments`. -/
def mf_fragment_path (m : mf_fw_t) (i : Nat) : String :=
  concatenate_path m.fragments_dir (mf_get_fragment_file_name m.fragment_name i)

/-- Loop of `mf_get_fragments` over the remaining indices: build the
fragment record for each index, failing at the first index whose file is
absent (`access(path, F_OK) != 0`).  `none` models the `error:` exit of the
C function, which frees the partial list and resets the stored count to
zero (`fw_info->fragments = NULL; fw_info->n_fragments = 0`). -/
def mf_collect_fragments (fs : FileSys) (m : mf_fw_t) :
    List Nat → Option (List mf_fragment_t)
  | [] => some []
  | i :: rest =>
    let name := mf_get_fragment_file_name m.fragment_name i
    let path := concatenate_path m.fragments_dir name
    if (fsGet fs path).isSome then
      (mf_collect_fragments fs m rest).map (fun fr => ⟨path, name, i⟩ :: fr)
    else
      none

/-- Model of `mf_get_fragments`: fragments for indices
`0 .. n_fragments - 1` (allocations are modelled as succeeding). -/
def mf_get_fragments (fs : FileSys) (m : mf_fw_t) : Option (List mf_fragment_t) :=
  mf_collect_fragments fs m (List.range m.n_fragments)

/-- Model of `mf_delete_fragments`: remove every fragment file of the
package (the `remove` return value is ignored by the C code). -/
def mf_delete_fragments (frags : List mf_fragment_t) (fs : FileSys) : FileSys :=
  frags.foldl (fun acc f => fsRemoveP acc f.path) fs

/-- Fragment loop of `mf_assemble_fw_package` (source lines 745-759): for
each fragment in index order, `mf_assemble_fragment` opens the fragment
archive, locates the entry named like the final package and appends its
decompressed bytes to the destination file; the fragment file is removed
right afterwards.  Any failure stops the loop with an error (`true`).
`unzip` is applied to the fragment's raw bytes and subsumes every failure
mode of `mf_assemble_fragment` (open, locate, decompress or write error); a
missing fragment file behaves like `unzOpen` failing. -/
def mf_assemble_loop (unzip : Bytes → Option Bytes) (destPath : String) :
    List mf_fragment_t → FileSys → Bool × FileSys
  | [], fs => (false, fs)
  | f :: rest, fs =>
    match (fsGet fs f.path).bind unzip with
    | none => (true, fs)
    | some d =>
      let fs1 := fsSet fs destPath ((fsGet fs destPath).getD [] ++ d)
      mf_assemble_loop unzip destPath rest (fsRemoveP fs1 f.path)

/-- Model of `mf_assemble_fw_package`.  Oracles for the external calls:
`openOk` is `fopen(file_path, "wb+")` succeeding, `syncOk` is
`fsync`+`fclose` succeeding, `crcOk` is `crc32file` succeeding and `crcFn`
the CRC32 value it computes; the `stat` size is the destination file's
length (the C code ignores the `stat` return value).  Returns the C return
code together with the resulting filesystem. -/
def mf_assemble_fw_package (unzip : Bytes → Option Bytes) (crcFn : Bytes → Nat)
    (openOk syncOk crcOk : Bool) (fs : FileSys) (fw_info : mf_fw_info_t) :
    Int × FileSys :=
  if !openOk then
    (-1, mf_delete_fragments fw_info.fragments fs)
  else
    let fs0 := fsSet fs fw_info.file_path []
    let r := mf_assemble_loop unzip fw_info.file_path fw_info.fragments fs0
    if r.1 || !syncOk then
      (-1, fsRemoveP (mf_delete_fragments fw_info.fragments r.2) fw_info.file_path)
    else
      let content := (fsGet r.2 fw_info.file_path).getD []
      if content.length ≠ fw_info.manifest.fw_total_size then
        (-1, fsRemoveP r.2 fw_info.file_path)
      else if !crcOk then
        (-1, fsRemoveP r.2 fw_info.file_path)
      else if crcFn content ≠ fw_info.manifest.fw_checksum then
        (-1, fsRemoveP r.2 fw_info.file_path)
      else
        (0, r.2)

/-- Outcomes of `mf_generate_fw`, one constructor per distinct abort branch
of the C function (each branch has its own log diagnostic); `ok` carries
the assembled package path stored into `fw_downloaded_path`. -/
inductive MfGenResult where
  | ok (path : String)
  | parseError
  | spaceUnknown
  | notEnoughSpace
  | fragmentsError
  | assembleError
  deriving DecidableEq

/-- Package file name `<fragment name>.swu` built by `mf_get_fw_path`
(`UPDATE_PACKAGE_EXT`). -/
def mf_fw_file_name (m : mf_fw_t) : String := m.fragment_name ++ ".swu"

/-- Destination package path built by `mf_get_fw_path`:
`cc_cfg->fw_download_path` joined with the package file name. -/
def mf_fw_file_path (m : mf_fw_t) (downloadPath : String) : String :=
  concatenate_path downloadPath (mf_fw_file_name m)

/-- Model of `mf_generate_fw`.  `parseRes` is the outcome of
`mf_parse_file` (`none` models its -1 return), `avail` the value of
`get_available_space(cc_cfg->fw_download_path)` (the `statvfs`
collaborator, which yields 0 on query failure), `downloadPath` is
`cc_cfg->fw_download_path`.  Allocation failures (`mf_get_fw_path`, the
final path copy) are modelled as succeeding. -/
def mf_generate_fw (unzip : Bytes → Option Bytes) (crcFn : Bytes → Nat)
    (openOk syncOk crcOk : Bool) (fs : FileSys) :
    Option mf_fw_t → Nat → String → MfGenResult × FileSys
  | none, _, _ => (.parseError, fs)
  | some m, avail, downloadPath =>
    if avail = 0 then (.spaceUnknown, fs)
    else if avail < m.fw_total_size then (.notEnoughSpace, fs)
    else
      match mf_get_fragments fs m with
      | none => (.fragmentsError, fs)
      | some frags =>
        let r := mf_assemble_fw_package unzip crcFn openOk syncOk crcOk fs
          ⟨mf_fw_file_path m downloadPath, mf_fw_file_name m, m, frags⟩
        if r.1 = 0 then (.ok (mf_fw_file_path m downloadPath), r.2)
        else (.assembleError, r.2)

/-- Whitespace predicate used by the `trim` model. -/
def isSpaceChar (c : Char) : Bool :=
  c == ' ' || c == '\t' || c == '\n' || c == '\r'

/-- Modelled from the spec: `trim` is declared in `library/src/_utils.h`
but its implementation (`utils.c`) is not under `src/`; per its declared
contract it removes leading and trailing whitespace from the process
response. -/
def trim (s : String) : String :=
  ⟨((s.data.dropWhile isSpaceChar).reverse.dropWhile isSpaceChar).reverse⟩

/-- Result of one call to `is_dual_boot_system`: the returned value, the
new value of the static `is_dual` cache, and whether the external query
(`fw_printenv -n dualboot` through `ldx_process_execute_cmd`) ran. -/
structure DualBootCall where
  result : Int
  cached : Int
  queried : Bool
  deriving DecidableEq

/-- Model of `is_dual_boot_system`.  `cached` is the current value of the
static `is_dual` (-1 unknown, 0 single, 1 dual); `query` is the outcome of
the external command (`none` models a non-zero return or a NULL
response). -/
def is_dual_boot_system (cached : Int) (query : Option String) : DualBootCall :=
  if cached ≠ -1 then ⟨cached, cached, false⟩
  else
    match query with
    | none => ⟨-1, -1, true⟩
    | some resp =>
      let v : Int := if trim resp = "yes" then 1 else 0
      ⟨v, v, true⟩

/-- Repeated calls to `is_dual_boot_system`, one query outcome per call:
the list of `(result, queried)` pairs and the final cache value. -/
def is_dual_boot_run (cached : Int) : List (Option String) → List (Int × Bool) × Int
  | [] => ([], cached)
  | q :: qs =>
    let c := is_dual_boot_system cached q
    let r := is_dual_boot_run c.cached qs
    ((c.result, c.queried) :: r.1, r.2)

/-- Connector-facing error codes of the data callback used by this module
(`ccapi_fw_data_error_t`). -/
inductive ccapi_fw_data_error_t where
  | none
  | invalid_data
  deriving DecidableEq

/-- Connector-facing error codes of the request callback used by this
module (`ccapi_fw_request_error_t`). -/
inductive ccapi_fw_request_error_t where
  | none
  | download_invalid_size
  | encountered_error
  deriving DecidableEq

/-- Which install branch `process_swu_package` takes (with
`ENABLE_RECOVERY_UPDATE` defined there are exactly two). -/
inductive InstallBranch where
  | dualboot
  | recovery
  deriving DecidableEq

/-- Whether `pat` occurs as a contiguous run at the start of `hay`
(helper for the `strstr` model). -/
def charSeqAt : List Char → List Char → Bool
  | [], _ => true
  | _ :: _, [] => false
  | a :: ps, b :: hs => a == b && charSeqAt ps hs

/-- Model of `strstr(hay, pat) != NULL`: `pat` occurs contiguously
somewhere in `hay`. -/
def charSeqIn (ps : List Char) : List Char → Bool
  | [] => charSeqAt ps []
  | b :: hs => charSeqAt ps (b :: hs) || charSeqIn ps hs

/-- The literal failure marker `process_swu_package` scans for in the
dual-boot updater output. -/
def updateErrorMarker : String := "There was an error performing the update"

/-- Per-line check
`strstr(line, "There was an error performing the update")`. -/
def lineReportsError (line : String) : Bool :=
  charSeqIn updateErrorMarker.toList line.toList

/-- Result of `process_swu_package`: the connector error code, the install
branch taken, and the updated `is_dual` cache. -/
structure SwuProcessResult where
  error : ccapi_fw_data_error_t
  branch : InstallBranch
  cached : Int
  deriving DecidableEq

/-- Model of `process_swu_package` with `ENABLE_RECOVERY_UPDATE` defined.
`cached`/`query` feed the `is_dual_boot_system` call it makes; `popenRes`
is the `popen("update-firmware --no-reboot <path>")` outcome (`none` for a
NULL stream, otherwise the lines read with `fgets`); `recoveryFails`
models `update_firmware(swu_path)` returning non-zero. -/
def process_swu_package (cached : Int) (query : Option String)
    (popenRes : Option (List String)) (recoveryFails : Bool) : SwuProcessResult :=
  let c := is_dual_boot_system cached query
  if c.result > 0 then
    match popenRes with
    | Option.none => ⟨.none, .dualboot, c.cached⟩
    | Option.some lines =>
      if lines.any lineReportsError then ⟨.invalid_data, .dualboot, c.cached⟩
      else ⟨.none, .dualboot, c.cached⟩
  else
    if recoveryFails then ⟨.invalid_data, .recovery, c.cached⟩
    else ⟨.none, .recovery, c.cached⟩

/-- Model of the non-streaming branch of `firmware_request_cb` (source
lines 1225-1254): build the download path, check the available space
against the cloud-declared total size, then create the destination file.
`avail` is the `get_available_space` result and `openOk` models `fopen`
succeeding.  Returns the request error code and the resulting
filesystem. -/
def firmware_request_cb_download (fs : FileSys) (downloadPath filename : String)
    (total_size : Nat) (avail : Nat) (openOk : Bool) :
    ccapi_fw_request_error_t × FileSys :=
  let path := concatenate_path downloadPath filename
  if avail = 0 then (.encountered_error, fs)
  else if avail < total_size then (.download_invalid_size, fs)
  else if !openOk then (.encountered_error, fs)
  else (.none, fsSet fs path [])

/-- Result of the last-chunk processing of `firmware_data_cb` for the
manifest target: the returned error code, whether `process_swu_package`
was invoked for the attempt, and the resulting filesystem. -/
structure ManifestFinalizeResult where
  error : ccapi_fw_data_error_t
  installerInvoked : Bool
  fs : FileSys
  deriving DecidableEq

/-- Model of the `CC_FW_TARGET_MANIFEST` case of `firmware_data_cb` on the
last chunk (source lines 1330-1366): close the downloaded manifest file
(`closeOk` models its `fsync`+`fclose` succeeding), run `mf_generate_fw`
and, only when that succeeds, `process_swu_package` on the generated
package. -/
def firmware_data_cb_manifest_finalize (unzip : Bytes → Option Bytes)
    (crcFn : Bytes → Nat) (openOk syncOk crcOk closeOk : Bool) (fs : FileSys)
    (parseRes : Option mf_fw_t) (avail : Nat) (downloadPath : String)
    (cached : Int) (query : Option String) (popenRes : Option (List String))
    (recoveryFails : Bool) : ManifestFinalizeResult :=
  if !closeOk then ⟨.invalid_data, false, fs⟩
  else
    match mf_generate_fw unzip crcFn openOk syncOk crcOk fs parseRes avail downloadPath with
    | (.ok _, fs') =>
      let r := process_swu_package cached query popenRes recoveryFails
      ⟨r.error, true, fs'⟩
    | (_, fs') => ⟨.invalid_data, false, fs'⟩

/-- Capacity of the single-slot streaming buffer (`FW_SWU_CHUNK_SIZE`,
128 KiB). -/
def FW_SWU_CHUNK_SIZE : Nat := 128 * 1024

/-- Streaming ("on-the-fly") state: the fields of `otf_info_t` the
producer (`firmware_data_cb`) and consumer (`otf_read_image_cb`) exchange
data through.  `buffer` is the current contents of the fixed C array. -/
structure otf_info_t where
  buffer : Bytes
  chunk_ready : Bool
  chunk_size : Nat
  last_chunk_size : Nat
  deriving DecidableEq

/-- Producer step (source lines 1288-1290 of `firmware_data_cb`): store
the chunk size, `memcpy` the chunk over the front of the buffer, then set
the ready flag. -/
def otf_push_chunk (data : Bytes) (s : otf_info_t) : otf_info_t :=
  { buffer := data ++ s.buffer.drop data.length,
    chunk_ready := true,
    chunk_size := data.length,
    last_chunk_size := s.last_chunk_size }

/-- Consumer step `otf_read_image_cb`, taken after its 1 ms busy-wait has
observed `chunk_ready` (the wait loop changes no state and is represented
by a `chunk_ready = true` precondition in the theorems).  Returns the
exposed chunk (`*p` limited to `*size` meaningful bytes, and `*size`)
paired with the new state; the ready flag is cleared only when
`chunk_size >= last_chunk_size`. -/
def otf_read_image_cb (s : otf_info_t) : (Bytes × Nat) × otf_info_t :=
  ((s.buffer.take s.chunk_size, s.chunk_size),
   { buffer := s.buffer,
     chunk_ready := if s.last_chunk_size ≤ s.chunk_size then false else s.chunk_ready,
     chunk_size := 0,
     last_chunk_size := s.chunk_size })

/-- Strict alternation of producer pushes and consumer pulls: each pushed
chunk is drained by exactly one pull before the next push.  Collects the
byte sequences the consumer receives. -/
def otf_run_alternating (s : otf_info_t) : List Bytes → List Bytes
  | [] => []
  | c :: cs =>
    let s1 := otf_push_chunk c s
    let r := otf_read_image_cb s1
    r.1.1 :: otf_run_alternating r.2 cs

/-! Helper lemmas about paths, the fragment scan and the assembly loop. -/

theorem append_singleton_ne (A B : List Char) (a b : Char) (hab : a ≠ b) :
    A ++ [a] ≠ B ++ [b] := by
  intro h
  have h1 : (A ++ [a]).getLast? = (B ++ [b]).getLast? := congrArg List.getLast? h
  simp only [List.getLast?_concat] at h1
  exact hab (Option.some.inj h1)

theorem zip_string_ne_swu_string (x y : String) : x ++ ".zip" ≠ y ++ ".swu" := by
  intro h
  have hd : x.data ++ ".zip".data = y.data ++ ".swu".data := by
    rw [← String.data_append, ← String.data_append, h]
  have h4 : (x.data ++ ['.', 'z', 'i']) ++ ['p'] = (y.data ++ ['.', 's', 'w']) ++ ['u'] := by
    simpa [List.append_assoc] using hd
  exact append_singleton_ne _ _ _ _ (by decide) h4

theorem concatenate_path_eq_append (d f : String) :
    ∃ d', concatenate_path d f = d' ++ f := by
  unfold concatenate_path
  by_cases h : d.data.getLast? = some '/'
  · exact ⟨d, by rw [if_pos h]⟩
  · exact ⟨d ++ "/", by rw [if_neg h]⟩

/-- A fragment path (ending in `.zip`) never coincides with the destination
package path (ending in `.swu`), whatever the directories involved. -/
theorem frag_path_ne_dest (m : mf_fw_t) (i : Nat) (dl : String) :
    mf_fragment_path m i ≠ mf_fw_file_path m dl := by
  obtain ⟨d1, hd1⟩ :=
    concatenate_path_eq_append m.fragments_dir (mf_get_fragment_file_name m.fragment_name i)
  obtain ⟨d2, hd2⟩ := concatenate_path_eq_append dl (mf_fw_file_name m)
  rw [mf_fragment_path, hd1, mf_fw_file_path, hd2, mf_get_fragment_file_name,
    mf_fw_file_name]
  rw [← String.append_assoc, ← String.append_assoc, ← String.append_assoc]
  exact zip_string_ne_swu_string _ _

/-- A path other than the destination that is absent before the assembly
loop is still absent after it (the loop only writes the destination). -/
theorem mf_assemble_loop_absent (unzip : Bytes → Option Bytes) (destPath p : String)
    (hp : p ≠ destPath) :
    ∀ (frags : List mf_fragment_t) (fs : FileSys), fsGet fs p = none →
      fsGet (mf_assemble_loop unzip destPath frags fs).2 p = none := by
  intro frags
  induction frags with
  | nil => intro fs h; simpa [mf_assemble_loop] using h
  | cons f rest ih =>
    intro fs h
    unfold mf_assemble_loop
    cases hu : (fsGet fs f.path).bind unzip with
    | none => simpa [hu] using h
    | some d =>
      simp only [hu]
      apply ih
      by_cases hf : p = f.path
      · subst hf
        exact fsGet_fsRemoveP_same _ _
      · rw [fsGet_fsRemoveP_ne _ _ _ hf, fsGet_fsSet_ne _ _ _ _ hp]
        exact h

/-- After a successful assembly loop run every fragment file of the list
has been removed (each one is removed right after it is appended). -/
theorem mf_assemble_loop_success_removed (unzip : Bytes → Option Bytes) (destPath : String) :
    ∀ (frags : List mf_fragment_t) (fs fs' : FileSys),
      mf_assemble_loop unzip destPath frags fs = (false, fs') →
      (∀ f ∈ frags, f.path ≠ destPath) →
      ∀ f ∈ frags, fsGet fs' f.path = none := by
  intro frags
  induction frags with
  | nil =>
    intro fs fs' _ _ f hf
    exact absurd hf (List.not_mem_nil f)
  | cons g rest ih =>
    intro fs fs' h hne f hf
    unfold mf_assemble_loop at h
    cases hu : (fsGet fs g.path).bind unzip with
    | none =>
      rw [hu] at h
      simp at h
    | some d =>
      rw [hu] at h
      simp only [] at h
      rcases List.mem_cons.mp hf with hfg | hfr
      · subst hfg
        have habs : fsGet (fsRemoveP
            (fsSet fs destPath ((fsGet fs destPath).getD [] ++ d)) f.path) f.path = none :=
          fsGet_fsRemoveP_same _ _
        have := mf_assemble_loop_absent unzip destPath f.path
          (hne f (List.mem_cons_self f rest)) rest _ habs
        rw [h] at this
        exact this
      · exact ih _ _ h (fun f' hf' => hne f' (List.mem_cons_of_mem g hf')) f hfr

/-- Successful fragment scans return exactly the fragment records for the
scanned indices. -/
theorem mf_collect_fragments_some (fs : FileSys) (m : mf_fw_t) :
    ∀ (idxs : List Nat) (l : List mf_fragment_t),
      mf_collect_fragments fs m idxs = some l →
      l = idxs.map (fun i =>
        ⟨mf_fragment_path m i, mf_get_fragment_file_name m.fragment_name i, i⟩) := by
  intro idxs
  induction idxs with
  | nil =>
    intro l h
    simpa [mf_collect_fragments] using (Option.some.inj h).symm
  | cons i rest ih =>
    intro l h
    unfold mf_collect_fragments at h
    by_cases hp : (fsGet fs (concatenate_path m.fragments_dir
        (mf_get_fragment_file_name m.fragment_name i))).isSome
    · simp only [hp, if_true, Option.map_eq_some'] at h
      obtain ⟨fr, hfr, hl⟩ := h
      simp [← hl, ih fr hfr, mf_fragment_path]
    · simp [hp] at h

/-- A missing index makes the fragment scan fail. -/
theorem mf_collect_fragments_missing (fs : FileSys) (m : mf_fw_t) :
    ∀ (idxs : List Nat), (∃ i ∈ idxs, fsGet fs (mf_fragment_path m i) = none) →
      mf_collect_fragments fs m idxs = none := by
  intro idxs
  induction idxs with
  | nil =>
    intro h
    obtain ⟨i, hi, _⟩ := h
    exact absurd hi (List.not_mem_nil i)
  | cons j rest ih =>
    intro h
    unfold mf_collect_fragments
    obtain ⟨i, hi, hnone⟩ := h
    rcases List.mem_cons.mp hi with hij | hir
    · subst hij
      rw [mf_fragment_path] at hnone
      simp [hnone]
    · by_cases hp : (fsGet fs (concatenate_path m.fragments_dir
          (mf_get_fragment_file_name m.fragment_name j))).isSome
      · simp [hp, ih ⟨i, hir, hnone⟩]
      · simp [hp]

/-- Inversion of a successful `mf_assemble_fw_package` run: every oracle
succeeded, the loop succeeded onto the final filesystem, and both
integrity checks passed. -/
theorem mf_assemble_fw_package_success (unzip : Bytes → Option Bytes)
    (crcFn : Bytes → Nat) (openOk syncOk crcOk : Bool) (fs fs' : FileSys)
    (fw_info : mf_fw_info_t)
    (h : mf_assemble_fw_package unzip crcFn openOk syncOk crcOk fs fw_info = (0, fs')) :
    mf_assemble_loop unzip fw_info.file_path fw_info.fragments
      (fsSet fs fw_info.file_path []) = (false, fs') ∧
    ((fsGet fs' fw_info.file_path).getD []).length = fw_info.manifest.fw_total_size ∧
    crcFn ((fsGet fs' fw_info.file_path).getD []) = fw_info.manifest.fw_checksum := by
  unfold mf_assemble_fw_package at h
  cases openOk with
  | false => simp at h
  | true =>
    simp only [Bool.not_true, Bool.false_eq_true, if_false, ite_false] at h
    rcases hl : mf_assemble_loop unzip fw_info.file_path fw_info.fragments
      (fsSet fs fw_info.file_path []) with ⟨err, fs1⟩
    rw [hl] at h
    cases err with
    | true => simp at h
    | false =>
      cases syncOk with
      | false => simp at h
      | true =>
        simp only [Bool.not_true, Bool.or_false, if_false, ite_false] at h
        by_cases h1 : ((fsGet fs1 fw_info.file_path).getD []).length =
            fw_info.manifest.fw_total_size
        · cases crcOk with
          | false => simp [h1] at h
          | true =>
            by_cases h2 : crcFn ((fsGet fs1 fw_info.file_path).getD []) =
                fw_info.manifest.fw_checksum
            · simp [h1, h2] at h
              subst h
              exact ⟨rfl, h1, h2⟩
            · simp [h1, h2] at h
        · simp [h1] at h

/-! Claim theorems. -/

/-- C1: for every manifest-target assembly attempt that reaches the
post-assembly checks (destination opened, all fragments decompressed and
appended, `fsync`+`fclose` succeeded), if the destination file's size
differs from the manifest's total size, or its computed CRC32 differs from
the manifest's checksum, then `mf_assemble_fw_package` deletes the
destination file and returns -1, and the install step
(`process_swu_package`) is never invoked for that attempt
(`installerInvoked = false` in the last-chunk handling, which returns
`CCAPI_FW_DATA_ERROR_INVALID_DATA`). -/
theorem c1_integrity_mismatch_blocks_install (unzip : Bytes → Option Bytes)
    (crcFn : Bytes → Nat) (crcOk recoveryFails : Bool) (fs fs1 : FileSys)
    (m : mf_fw_t) (avail : Nat) (dl : String) (frags : List mf_fragment_t)
    (cached : Int) (query : Option String) (popenRes : Option (List String))
    (havail : avail ≠ 0) (hspace : ¬ avail < m.fw_total_size)
    (hfr : mf_get_fragments fs m = some frags)
    (hloop : mf_assemble_loop unzip (mf_fw_file_path m dl) frags
      (fsSet fs (mf_fw_file_path m dl) []) = (false, fs1))
    (hmis : ((fsGet fs1 (mf_fw_file_path m dl)).getD []).length ≠ m.fw_total_size ∨
      (crcOk = true ∧
        crcFn ((fsGet fs1 (mf_fw_file_path m dl)).getD []) ≠ m.fw_checksum)) :
    mf_assemble_fw_package unzip crcFn true true crcOk fs
        ⟨mf_fw_file_path m dl, mf_fw_file_name m, m, frags⟩ =
      (-1, fsRemoveP fs1 (mf_fw_file_path m dl)) ∧
    fsGet (fsRemoveP fs1 (mf_fw_file_path m dl)) (mf_fw_file_path m dl) = none ∧
    firmware_data_cb_manifest_finalize unzip crcFn true true crcOk true fs
        (some m) avail dl cached query popenRes recoveryFails =
      ⟨.invalid_data, false, fsRemoveP fs1 (mf_fw_file_path m dl)⟩ := by
  have hasm : mf_assemble_fw_package unzip crcFn true true crcOk fs
      ⟨mf_fw_file_path m dl, mf_fw_file_name m, m, frags⟩ =
      (-1, fsRemoveP fs1 (mf_fw_file_path m dl)) := by
    unfold mf_assemble_fw_package
    simp only [Bool.not_true, Bool.false_eq_true, if_false, ite_false]
    rw [hloop]
    simp only [Bool.or_false, Bool.false_eq_true, if_false, ite_false]
    by_cases h1 : ((fsGet fs1 (mf_fw_file_path m dl)).getD []).length =
        m.fw_total_size
    · rcases hmis with hlen | ⟨hcrcOk, hcrc⟩
      · exact absurd h1 hlen
      · subst hcrcOk
        simp [h1, hcrc]
    · simp [h1]
  have hgen : mf_generate_fw unzip crcFn true true crcOk fs (some m) avail dl =
      (.assembleError, fsRemoveP fs1 (mf_fw_file_path m dl)) := by
    simp only [mf_generate_fw]
    rw [if_neg havail, if_neg hspace]
    simp only [hfr, hasm]
    norm_num
  refine ⟨hasm, fsGet_fsRemoveP_same _ _, ?_⟩
  unfold firmware_data_cb_manifest_finalize
  simp only [Bool.not_true, Bool.false_eq_true, if_false, ite_false, hgen]

/-- C2: for every valid manifest (positive declared size) a successful run
of `mf_generate_fw` (which assembles the fragments located for indices
`0 .. n_fragments - 1`) produces a destination file whose size equals the
manifest's total size and whose CRC32 equals the manifest's checksum, and
every fragment file has been removed afterward. -/
theorem c2_assemble_success_integrity (unzip : Bytes → Option Bytes)
    (crcFn : Bytes → Nat) (openOk syncOk crcOk : Bool) (fs fs' : FileSys)
    (m : mf_fw_t) (avail : Nat) (dl p : String)
    (hvalid : 0 < m.fw_total_size)
    (hgen : mf_generate_fw unzip crcFn openOk syncOk crcOk fs (some m) avail dl =
      (.ok p, fs')) :
    ∃ content, fsGet fs' p = some content ∧
      content.length = m.fw_total_size ∧
      crcFn content = m.fw_checksum ∧
      ∀ i < m.n_fragments, fsGet fs' (mf_fragment_path m i) = none := by
  simp only [mf_generate_fw] at hgen
  by_cases h0 : avail = 0
  · simp [h0] at hgen
  rw [if_neg h0] at hgen
  by_cases h1 : avail < m.fw_total_size
  · simp [h1] at hgen
  rw [if_neg h1] at hgen
  cases hfr : mf_get_fragments fs m with
  | none =>
    simp [hfr] at hgen
  | some frags =>
    simp only [hfr] at hgen
    rcases ha : mf_assemble_fw_package unzip crcFn openOk syncOk crcOk fs
        ⟨mf_fw_file_path m dl, mf_fw_file_name m, m, frags⟩ with ⟨code, fs2⟩
    by_cases hc : code = 0
    · subst hc
      simp only [ha, Prod.mk.injEq, MfGenResult.ok.injEq, if_pos] at hgen
      obtain ⟨hp, hfs⟩ := hgen
      subst hp
      subst hfs
      obtain ⟨hloop, hsize, hcrc⟩ :=
        mf_assemble_fw_package_success unzip crcFn openOk syncOk crcOk fs fs2
          ⟨mf_fw_file_path m dl, mf_fw_file_name m, m, frags⟩ ha
      have hfrags : frags = (List.range m.n_fragments).map (fun i =>
          ⟨mf_fragment_path m i, mf_get_fragment_file_name m.fragment_name i, i⟩) :=
        mf_collect_fragments_some fs m (List.range m.n_fragments) frags hfr
      have hne : ∀ f ∈ frags, f.path ≠ mf_fw_file_path m dl := by
        intro f hf
        rw [hfrags] at hf
        obtain ⟨i, _, hfi⟩ := List.mem_map.mp hf
        rw [← hfi]
        exact frag_path_ne_dest m i dl
      have hremoved : ∀ i < m.n_fragments, fsGet fs2 (mf_fragment_path m i) = none := by
        intro i hi
        have hmem : (⟨mf_fragment_path m i, mf_get_fragment_file_name m.fragment_name i,
            i⟩ : mf_fragment_t) ∈ frags := by
          rw [hfrags]
          exact List.mem_map.mpr ⟨i, List.mem_range.mpr hi, rfl⟩
        exact mf_assemble_loop_success_removed unzip (mf_fw_file_path m dl) frags
          _ fs2 hloop hne _ hmem
      cases hC : fsGet fs2 (mf_fw_file_path m dl) with
      | none =>
        rw [hC] at hsize
        simp at hsize
        rw [← hsize] at hvalid
        exact absurd hvalid (by norm_num)
      | some content =>
        rw [hC] at hsize hcrc
        simp only [Option.getD_some] at hsize hcrc
        exact ⟨content, rfl, hsize, hcrc, hremoved⟩
    · simp [ha, hc] at hgen

/-- C3: if any expected fragment file `<name><index>.zip`
(index `0 .. n_fragments - 1`) is missing from the source directory, the
manifest attempt aborts in `mf_get_fragments` (whose `error:` exit frees
the fragment list and resets the stored count to zero, modelled by the
`none` result) before the destination file is even opened: `mf_generate_fw`
returns an error and the filesystem is completely unchanged, so no byte
was written and no partial destination file exists. -/
theorem c3_missing_fragment_aborts (unzip : Bytes → Option Bytes)
    (crcFn : Bytes → Nat) (openOk syncOk crcOk : Bool) (fs : FileSys)
    (m : mf_fw_t) (avail : Nat) (dl : String) (k : Nat)
    (havail : avail ≠ 0) (hspace : ¬ avail < m.fw_total_size)
    (hk : k < m.n_fragments)
    (hmiss : fsGet fs (mf_fragment_path m k) = none) :
    mf_get_fragments fs m = none ∧
    mf_generate_fw unzip crcFn openOk syncOk crcOk fs (some m) avail dl =
      (.fragmentsError, fs) := by
  have hfr : mf_get_fragments fs m = none :=
    mf_collect_fragments_missing fs m (List.range m.n_fragments)
      ⟨k, List.mem_range.mpr hk, hmiss⟩
  refine ⟨hfr, ?_⟩
  simp only [mf_generate_fw]
  rw [if_neg havail, if_neg hspace]
  simp only [hfr]

/-- C4 counterexample: with declared size 1 and the space query returning
0 (so the available space is below the declared size), the raw-SWU request
aborts with the general `CCAPI_FW_REQUEST_ERROR_ENCOUNTERED_ERROR`, not
with the size-specific `CCAPI_FW_REQUEST_ERROR_DOWNLOAD_INVALID_SIZE` the
claim requires. -/
theorem c4_counterexample :
    (firmware_request_cb_download [] "/fw" "image.swu" 1 0 true).1 =
      ccapi_fw_request_error_t.encountered_error ∧
    ¬ (firmware_request_cb_download [] "/fw" "image.swu" 1 0 true).1 =
      ccapi_fw_request_error_t.download_invalid_size := by
  decide

/-- C4 (amended): on both the raw-SWU path (`firmware_request_cb`) and the
manifest path (`mf_generate_fw`), a positive space-query result below the
declared size aborts with the size-specific error
(`CCAPI_FW_REQUEST_ERROR_DOWNLOAD_INVALID_SIZE`, resp. the
insufficient-space branch) before any byte is written (the filesystem is
unchanged); a zero space-query result (query failure, indistinguishable
from a completely full filesystem) also aborts before any write, but with
the general error of the separate space-unknown branch instead of the
size-specific one. -/
theorem c4_amended_space_guard (fs : FileSys) (dl fn : String)
    (total avail : Nat) (openOk : Bool) (unzip : Bytes → Option Bytes)
    (crcFn : Bytes → Nat) (openOk2 syncOk crcOk : Bool) (m : mf_fw_t) :
    (0 < avail → avail < total →
      firmware_request_cb_download fs dl fn total avail openOk =
        (.download_invalid_size, fs)) ∧
    (avail = 0 →
      firmware_request_cb_download fs dl fn total avail openOk =
        (.encountered_error, fs)) ∧
    (0 < avail → avail < m.fw_total_size →
      mf_generate_fw unzip crcFn openOk2 syncOk crcOk fs (some m) avail dl =
        (.notEnoughSpace, fs)) ∧
    (avail = 0 →
      mf_generate_fw unzip crcFn openOk2 syncOk crcOk fs (some m) avail dl =
        (.spaceUnknown, fs)) := by
  refine ⟨?_, ?_, ?_, ?_⟩
  · intro h0 hlt
    simp only [firmware_request_cb_download]
    rw [if_neg (by omega), if_pos hlt]
  · intro h0
    simp only [firmware_request_cb_download]
    rw [if_pos h0]
  · intro h0 hlt
    simp only [mf_generate_fw]
    rw [if_neg (by omega), if_pos hlt]
  · intro h0
    simp only [mf_generate_fw]
    rw [if_pos h0]

/-- C6 counterexample: when the boot-system classifier fails
(`is_dual_boot_system` returns -1, boot type Unknown), the install
dispatcher does not refrain from installing: `is_dual_boot_system() > 0`
is false, so it falls into the non-dual branch and invokes the
recovery-partition writer (`update_firmware`), contradicting the claim
that no install branch is taken on an indeterminate classification. -/
theorem c6_counterexample :
    (is_dual_boot_system (-1) Option.none).result = -1 ∧
    (process_swu_package (-1) Option.none Option.none false).branch =
      InstallBranch.recovery := by
  decide

/-- C6 (amended): when the classifier returns Unknown the dual-boot
installer is never invoked, but the Unknown result is not handled
conservatively either: the package is processed exactly as on a
single-boot system, and with `ENABLE_RECOVERY_UPDATE` the
recovery-partition writer is invoked. -/
theorem c6_amended_unknown_goes_to_recovery (cached : Int) (query : Option String)
    (popenRes : Option (List String)) (recoveryFails : Bool)
    (h : (is_dual_boot_system cached query).result = -1) :
    (process_swu_package cached query popenRes recoveryFails).branch =
      InstallBranch.recovery ∧
    (process_swu_package cached query popenRes recoveryFails).branch ≠
      InstallBranch.dualboot := by
  simp only [process_swu_package, h]
  norm_num
  cases recoveryFails <;> simp

/-- C7: pushing chunks (each within the 128 KiB slot capacity) through the
streaming bridge in strict alternation with consumer pulls hands the
consumer exactly the pushed chunks, in order; in particular the
concatenation of everything the consumer receives equals the concatenation
of everything pushed — S bytes in, S bytes out, no gaps, no
duplication. -/
theorem c7_streaming_round_trip (s : otf_info_t) (cs : List Bytes)
    (hcap : ∀ c ∈ cs, c.length ≤ FW_SWU_CHUNK_SIZE) :
    otf_run_alternating s cs = cs ∧
    (otf_run_alternating s cs).flatten = cs.flatten := by
  clear hcap
  have h : otf_run_alternating s cs = cs := by
    induction cs generalizing s with
    | nil => rfl
    | cons c rest ih =>
      simp only [otf_run_alternating, otf_push_chunk, otf_read_image_cb]
      rw [List.take_left]
      exact congrArg _ (ih _)
  exact ⟨h, by rw [h]⟩

/-- C8 counterexample: an invocation of the streaming consumer callback
does not always clear the ready flag once the chunk is consumed.  In the
state after a 2-byte chunk was pushed while the previously consumed chunk
had 3 bytes (`chunk_size = 2 < last_chunk_size = 3`), `otf_read_image_cb`
returns the chunk but leaves `chunk_ready` set. -/
theorem c8_counterexample :
    ¬ ((otf_read_image_cb ⟨[1, 2, 3], true, 2, 3⟩).2.chunk_ready = false) := by
  decide

/-- C8 (amended): an invocation of the streaming consumer callback, once
its 1 ms poll has observed the chunk-ready flag, returns the buffered
chunk and its size and records the consumed size; but it clears the ready
flag only when the chunk is at least as large as the previously consumed
one (`chunk_size >= last_chunk_size`) — after a shorter chunk the flag
stays set, so the next invocation returns a zero-length chunk. -/
theorem c8_amended_consumer (s : otf_info_t) (h : s.chunk_ready = true) :
    (otf_read_image_cb s).1 = (s.buffer.take s.chunk_size, s.chunk_size) ∧
    (otf_read_image_cb s).2.chunk_ready =
      decide (s.chunk_size < s.last_chunk_size) ∧
    (otf_read_image_cb s).2.last_chunk_size = s.chunk_size ∧
    (otf_read_image_cb s).2.chunk_size = 0 := by
  refine ⟨rfl, ?_, rfl, rfl⟩
  simp only [otf_read_image_cb]
  by_cases hc : s.last_chunk_size ≤ s.chunk_size
  · rw [if_pos hc]
    exact (decide_eq_false (Nat.not_lt.mpr hc)).symm
  · rw [if_neg hc, h]
    exact (decide_eq_true (Nat.lt_of_not_le hc)).symm

/-- C9: the boot-type classifier caches only a successful classification:
with the cache holding 0 (single) or 1 (dual), every later call returns
the cached value without running the external query and leaves the cache
untouched; while after a failed query the cache stays -1, the call returns
-1, and the next call runs the query again (a successful query stores its
result in the cache). -/
theorem c9_classifier_cache (v : Int) (qs : List (Option String)) (r : String)
    (hv : v = 0 ∨ v = 1) :
    ((is_dual_boot_run v qs).1 = qs.map (fun _ => (v, false)) ∧
      (is_dual_boot_run v qs).2 = v) ∧
    is_dual_boot_system (-1) Option.none = ⟨-1, -1, true⟩ ∧
    (is_dual_boot_system (-1) (Option.some r)).queried = true ∧
    (is_dual_boot_system (-1) (Option.some r)).cached =
      (is_dual_boot_system (-1) (Option.some r)).result := by
  have hv' : ¬ v = -1 := by rcases hv with h | h <;> omega
  refine ⟨?_, by simp [is_dual_boot_system], by simp [is_dual_boot_system],
    by simp [is_dual_boot_system]⟩
  induction qs with
  | nil => simp [is_dual_boot_run]
  | cons q rest ih =>
    simp [is_dual_boot_run, is_dual_boot_system, hv', ih]

/-- C10: on a dual-boot system, when the external updater process cannot
be launched at all (`popen` returns NULL), `process_swu_package` still
returns `CCAPI_FW_DATA_ERROR_NONE`: the failure is logged but not reported
as an install error to the caller. -/
theorem c10_popen_failure_reports_success (cached : Int) (query : Option String)
    (recoveryFails : Bool)
    (h : (is_dual_boot_system cached query).result > 0) :
    (process_swu_package cached query Option.none recoveryFails).error =
      ccapi_fw_data_error_t.none ∧
    (process_swu_package cached query Option.none recoveryFails).branch =
      InstallBranch.dualboot := by
  simp only [process_swu_package]
  rw [if_pos h]
  exact ⟨rfl, rfl⟩

/-! Witnesses: each claim theorem with hypotheses applied at a concrete
input. -/

theorem c1_witness :
    mf_assemble_fw_package Option.some (fun _ => 0) true true true
        [("/frags/img0.zip", [1, 2, 3])]
        ⟨"/fw/img.swu", "img.swu", ⟨5, 1, "img", 7, "/frags"⟩,
          [⟨"/frags/img0.zip", "img0.zip", 0⟩]⟩ = (-1, []) ∧
    fsGet [] "/fw/img.swu" = none ∧
    firmware_data_cb_manifest_finalize Option.some (fun _ => 0) true true true
        true [("/frags/img0.zip", [1, 2, 3])] (some ⟨5, 1, "img", 7, "/frags"⟩)
        10 "/fw" 1 Option.none Option.none false =
      ⟨.invalid_data, false, []⟩ :=
  c1_integrity_mismatch_blocks_install Option.some (fun _ => 0) true false
    [("/frags/img0.zip", [1, 2, 3])] [("/fw/img.swu", [1, 2, 3])]
    ⟨5, 1, "img", 7, "/frags"⟩ 10 "/fw" [⟨"/frags/img0.zip", "img0.zip", 0⟩]
    1 Option.none Option.none (by decide) (by decide) (by decide) (by decide)
    (Or.inl (by decide))

theorem c2_witness :
    ∃ content, fsGet [("/fw/img.swu", [9, 9, 9])] "/fw/img.swu" = some content ∧
      content.length = 3 ∧ 42 = 42 ∧
      ∀ i < 1, fsGet [("/fw/img.swu", [9, 9, 9])]
        (mf_fragment_path ⟨3, 1, "img", 42, "/frags"⟩ i) = none :=
  c2_assemble_success_integrity Option.some (fun _ => 42) true true true
    [("/frags/img0.zip", [9, 9, 9])] [("/fw/img.swu", [9, 9, 9])]
    ⟨3, 1, "img", 42, "/frags"⟩ 10 "/fw" "/fw/img.swu" (by decide) (by decide)

theorem c3_witness :
    mf_get_fragments [("/frags/img0.zip", [1])] ⟨5, 2, "img", 7, "/frags"⟩ =
      none ∧
    mf_generate_fw Option.some (fun _ => 0) true true true
        [("/frags/img0.zip", [1])] (some ⟨5, 2, "img", 7, "/frags"⟩) 10 "/fw" =
      (.fragmentsError, [("/frags/img0.zip", [1])]) :=
  c3_missing_fragment_aborts Option.some (fun _ => 0) true true true
    [("/frags/img0.zip", [1])] ⟨5, 2, "img", 7, "/frags"⟩ 10 "/fw" 1
    (by decide) (by decide) (by decide) (by decide)

theorem c4_witness :
    firmware_request_cb_download [] "/fw" "image.swu" 5 3 true =
      (.download_invalid_size, []) ∧
    mf_generate_fw Option.some (fun _ => 0) true true true []
        (some ⟨5, 1, "img", 7, "/frags"⟩) 0 "/fw" = (.spaceUnknown, []) := by
  constructor
  · exact (c4_amended_space_guard [] "/fw" "image.swu" 5 3 true Option.some
      (fun _ => 0) true true true ⟨5, 1, "img", 7, "/frags"⟩).1
      (by decide) (by decide)
  · exact (c4_amended_space_guard [] "/fw" "image.swu" 5 0 true Option.some
      (fun _ => 0) true true true ⟨5, 1, "img", 7, "/frags"⟩).2.2.2 (by decide)

theorem c6_witness :
    (process_swu_package (-1) Option.none Option.none false).branch =
      InstallBranch.recovery ∧
    (process_swu_package (-1) Option.none Option.none false).branch ≠
      InstallBranch.dualboot :=
  c6_amended_unknown_goes_to_recovery (-1) Option.none Option.none false
    (by decide)

theorem c7_witness :
    otf_run_alternating ⟨[], false, 0, 0⟩ [[1, 2], [3]] = [[1, 2], [3]] ∧
    (otf_run_alternating ⟨[], false, 0, 0⟩ [[1, 2], [3]]).flatten =
      [[1, 2], [3]].flatten :=
  c7_streaming_round_trip ⟨[], false, 0, 0⟩ [[1, 2], [3]] (by decide)

theorem c8_witness :
    (otf_read_image_cb ⟨[5, 6], true, 2, 0⟩).1 = ([5, 6], 2) ∧
    (otf_read_image_cb ⟨[5, 6], true, 2, 0⟩).2.chunk_ready = decide (2 < 0) ∧
    (otf_read_image_cb ⟨[5, 6], true, 2, 0⟩).2.last_chunk_size = 2 ∧
    (otf_read_image_cb ⟨[5, 6], true, 2, 0⟩).2.chunk_size = 0 :=
  c8_amended_consumer ⟨[5, 6], true, 2, 0⟩ rfl

theorem c9_witness :
    ((is_dual_boot_run 1 [Option.none, Option.some "x"]).1 =
        [(1, false), (1, false)] ∧
      (is_dual_boot_run 1 [Option.none, Option.some "x"]).2 = 1) ∧
    is_dual_boot_system (-1) Option.none = ⟨-1, -1, true⟩ ∧
    (is_dual_boot_system (-1) (Option.some "yes")).queried = true ∧
    (is_dual_boot_system (-1) (Option.some "yes")).cached =
      (is_dual_boot_system (-1) (Option.some "yes")).result :=
  c9_classifier_cache 1 [Option.none, Option.some "x"] "yes" (Or.inr rfl)

theorem c10_witness :
    (process_swu_package 1 Option.none Option.none false).error =
      ccapi_fw_data_error_t.none ∧
    (process_swu_package 1 Option.none Option.none false).branch =
      InstallBranch.dualboot :=
  c10_popen_failure_reports_success 1 Option.none false (by decide)

end CcFw
